import Mathlib

/-!
Shallow embedding of the client/task synchronization and ordering core of
`src/App.js` (client onboarding tracker).

Documents are modelled as plain records; the Firestore store is a record of
a client list and a list of (clientId, task) pairs (tasks live in a
per-client subcollection, so they are keyed by the pair of the client id and
the task id).  A write batch is a list of write operations; committing a
batch is all-or-nothing, which we model with a boolean outcome: a successful
commit folds every write into the store, a failed commit leaves the store
untouched.  `batch.set` is only ever called in the source on freshly
generated document references (`doc(collection(db, path))` / `addDoc`), so a
set write is modelled as appending a new document.
-/

namespace ClientTracker

/-- A client document: `{ name, createdAt }` plus its store-assigned id
(ids are opaque; we use `Nat`).  Timestamps are opaque (`Nat`). -/
structure Client where
  id : Nat
  name : String
  createdAt : Nat
  deriving Repr, DecidableEq

/-- A task document: `{ name, status, createdAt, order, priority, dueDate }`
plus its store-assigned id.  `dueDate` is nullable (`Option String`). -/
structure Task where
  id : Nat
  name : String
  status : String
  createdAt : Nat
  order : Nat
  priority : String
  dueDate : Option String
  deriving Repr, DecidableEq

/-- The remote document store: the `users/{uid}/clients` collection and the
`users/{uid}/clients/{cid}/tasks` subcollections (tasks tagged with their
parent client id). -/
structure Store where
  clients : List Client
  tasks : List (Nat × Task)
  deriving Repr, DecidableEq

/-- One write operation of a Firestore write batch, as used by the source:
`batch.set` on a fresh client ref, `batch.set` on a fresh task ref,
`batch.delete` of a client doc, `batch.delete` of a task doc. -/
inductive Write where
  | setClient : Client → Write
  | setTask : Nat → Task → Write
  | delClient : Nat → Write
  | delTask : Nat → Nat → Write
  deriving Repr, DecidableEq

/-- Apply one write to the store.  Sets append (they are only issued on
fresh document references); deletes remove the documents with the given
key. -/
def applyWrite (s : Store) : Write → Store
  | .setClient c => { s with clients := s.clients ++ [c] }
  | .setTask cid t => { s with tasks := s.tasks ++ [(cid, t)] }
  | .delClient cid => { s with clients := s.clients.filter (fun c => decide (c.id ≠ cid)) }
  | .delTask cid tid =>
      { s with tasks := s.tasks.filter (fun p => decide (¬ (p.1 = cid ∧ p.2.id = tid))) }

/-- `batch.commit()`: atomic, all-or-nothing.  `ok = true` applies every
write of the batch in order; `ok = false` (a failed commit) leaves the
store unchanged. -/
def commitBatch (ok : Bool) (batch : List Write) (s : Store) : Store :=
  if ok then batch.foldl applyWrite s else s

/-- The task documents of one client's `tasks` subcollection. -/
def tasksOf (s : Store) (cid : Nat) : List Task :=
  (s.tasks.filter (fun p => decide (p.1 = cid))).map Prod.snd

/-- JavaScript `String.prototype.trim()`: strip leading and trailing
whitespace.  Defined over the string's character list (rather than via
`String.trim`, whose well-founded recursion does not reduce) so that the
validation checks evaluate on concrete inputs. -/
def jsTrim (s : String) : String :=
  ⟨((s.data.dropWhile Char.isWhitespace).reverse.dropWhile Char.isWhitespace).reverse⟩

/-- `STANDARD_ONBOARDING_TASKS` from `App.js`. -/
def STANDARD_ONBOARDING_TASKS : List String :=
  ["Kick off call", "Additional Requirement gathering",
   "Email to vendors for vendor integration", "Sign up the account on sell.do",
   "Setup account related details", "Schedule and conduct Admin Training",
   "Schedule and conduct User Training",
   "Handover client to support or Account Manager"]

/-- The seed task documents written by `addClient`'s
`STANDARD_ONBOARDING_TASKS.forEach`: the `index`-th template entry becomes
a task with `order = index`, `status = "Pending"`, `priority = "Normal"`,
`dueDate = null`.  `now` is the `new Date()` timestamp; seed task ids are
the fresh task refs (distinct within the batch, modelled by the template
index). -/
def seedTasks (now : Nat) : List Task :=
  STANDARD_ONBOARDING_TASKS.enum.map (fun p =>
    { id := p.1, name := p.2, status := "Pending", createdAt := now,
      order := p.1, priority := "Normal", dueDate := none })

/-- The batch built by `addClient` in `App.js`: if the client name trims to
the empty string the function returns before building any batch (`none`);
otherwise one `batch.set` of the new client document followed by one
`batch.set` per seed task.  `newId` is the fresh client document id. -/
def addClientBatch (clientName : String) (newId : Nat) (now : Nat) : Option (List Write) :=
  if jsTrim clientName = "" then none
  else
    some (Write.setClient { id := newId, name := jsTrim clientName, createdAt := now } ::
      (seedTasks now).map (Write.setTask newId))

/-- `addClient` end to end: build the batch (or return with the store
untouched on validation failure) and commit it with outcome `ok`. -/
def addClient (s : Store) (clientName : String) (newId : Nat) (now : Nat) (ok : Bool) : Store :=
  match addClientBatch clientName newId now with
  | none => s
  | some b => commitBatch ok b s

/-- The batch built by `deleteClient` in `App.js`: read the client's full
current task set (`getDocs` of the subcollection), delete each of those
task documents, and delete the client document, all in one batch. -/
def deleteClientBatch (s : Store) (clientId : Nat) : List Write :=
  ((tasksOf s clientId).map (fun t => Write.delTask clientId t.id)) ++
    [Write.delClient clientId]

/-- `deleteClient` end to end: build the cascade batch from the current
store and commit it with outcome `ok`. -/
def deleteClient (s : Store) (clientId : Nat) (ok : Bool) : Store :=
  commitBatch ok (deleteClientBatch s clientId) s

/-- `addTask` from the `ClientDetail` component: reject a name that trims
empty, otherwise `addDoc` one new task with `order = tasks.length` (the
current task count), `status = "Pending"`, `priority = "Normal"`,
`dueDate = null`.  `tasks` is the component's current task list; the write
touches no existing task document. -/
def addTask (tasks : List Task) (newTaskName : String) (newId : Nat) (now : Nat) : List Task :=
  if jsTrim newTaskName = "" then tasks
  else
    tasks ++ [{ id := newId, name := jsTrim newTaskName, status := "Pending",
                createdAt := now, order := tasks.length, priority := "Normal",
                dueDate := none }]

/-- `deleteTask` from `ClientDetail`: a single `deleteDoc` of the one task
document; no other write is issued, so the remaining tasks keep their
records (in particular their `order` fields) unchanged. -/
def deleteTask (tasks : List Task) (taskId : Nat) : List Task :=
  tasks.filter (fun t => decide (t.id ≠ taskId))

/-- The partial field map passed to `updateDoc` by `updateTask`: only the
fields present in the map are overwritten. -/
structure UpdateData where
  name : Option String := none
  status : Option String := none
  priority : Option String := none
  dueDate : Option (Option String) := none
  order : Option Nat := none
  deriving Repr, DecidableEq

/-- `updateDoc(taskDocRef, data)`: merge the partial field map into the
document, leaving every absent field as it was. -/
def applyUpdate (t : Task) (d : UpdateData) : Task :=
  { t with
    name := d.name.getD t.name
    status := d.status.getD t.status
    priority := d.priority.getD t.priority
    dueDate := d.dueDate.getD t.dueDate
    order := d.order.getD t.order }

/-- `updateTask` from `ClientDetail`: update the one task document with the
given id by the partial field map; no other document is touched. -/
def updateTask (tasks : List Task) (taskId : Nat) (d : UpdateData) : List Task :=
  tasks.map (fun t => if t.id = taskId then applyUpdate t d else t)

/-- The field map sent by `handleDrop` in `BoardView` (and by
`StatusPicker`): `{ status: newStatus }` and nothing else. -/
def handleDrop (newStatus : String) : UpdateData :=
  { status := some newStatus }

/-- The field map sent by `PriorityPicker`'s change handler:
`{ priority: e.target.value }` and nothing else. -/
def priorityChange (newPriority : String) : UpdateData :=
  { priority := some newPriority }

/-- `handleDateChange` in `DatePicker`:
`{ dueDate: e.target.value || null }` — the empty input string is
normalized to null before the write. -/
def handleDateChange (value : String) : UpdateData :=
  { dueDate := some (if value = "" then none else some value) }

/-- `handleSort` from `ListView`: JavaScript
`_tasks.splice(dragItem, 1)[0]` removes the dragged element (returning
`undefined` when `dragItem` is out of range, modelled by `none`);
`_tasks.splice(dragOverItem, 0, dragged)` reinserts it
(`l.take j ++ dragged :: l.drop j` is exactly the splice-insert including
its clamping past the end); then one batch updates every task of the
resulting list with `order := its index`. -/
def handleSort (tasks : List Task) (dragItem dragOverItem : Nat) : Option (List Task) :=
  match tasks.get? dragItem with
  | none => none
  | some draggedItemContent =>
      let rest := tasks.eraseIdx dragItem
      let reordered := rest.take dragOverItem ++ draggedItemContent :: rest.drop dragOverItem
      some (reordered.enum.map (fun p => { p.2 with order := p.1 }))

/-- The clients `onSnapshot` callback in `App`: given the previous
selection and the new full client-list snapshot, compute the new
selection.  Mirrors the if/else-if chain of the source. -/
def reconcileSelection (selectedClient : Option Client) (clientsData : List Client) :
    Option Client :=
  match selectedClient with
  | some sc =>
      if ¬ clientsData.any (fun c => decide (c.id = sc.id)) then clientsData.head?
      else if clientsData.length = 0 then none
      else some sc
  | none =>
      if clientsData.length > 0 then clientsData.head?
      else if clientsData.length = 0 then none
      else none

/-! Concrete documents used to instantiate the theorems. -/

def taskA : Task := ⟨0, "A", "Pending", 0, 0, "Normal", none⟩

def taskB : Task := ⟨1, "B", "Pending", 0, 1, "Normal", none⟩

def taskC : Task := ⟨2, "C", "Pending", 0, 2, "Normal", none⟩

def taskD : Task := ⟨3, "D", "Pending", 0, 3, "Normal", none⟩

/-- Tasks ordered `[A, B, C, D]` with orders `0, 1, 2, 3`. -/
def abcdTasks : List Task := [taskA, taskB, taskC, taskD]

/-- An inconsistent pre-state: three tasks whose `order` fields are
`5, 5, 0` (duplicates and gaps). -/
def messyTasks : List Task :=
  [⟨0, "P", "Pending", 0, 5, "Normal", none⟩,
   ⟨1, "Q", "Pending", 0, 5, "Normal", none⟩,
   ⟨2, "R", "Pending", 0, 0, "Normal", none⟩]

/-- A concrete two-client store used to instantiate the deletion and
rejection theorems. -/
def twoClientStore : Store :=
  { clients := [⟨1, "X", 0⟩, ⟨2, "Y", 0⟩],
    tasks := [(1, taskA), (1, taskB), (2, taskC)] }

/-- A task list with a gap left by an earlier delete: orders `0, 2`. -/
def gapTasks : List Task :=
  [⟨0, "First", "Pending", 0, 0, "Normal", none⟩,
   ⟨2, "Third", "Pending", 0, 2, "Normal", none⟩]

/-- Three tasks with dense orders `0, 1, 2`; deleting the middle one
leaves orders `0, 2` — a gap. -/
def threeTasks : List Task :=
  [⟨0, "T0", "Pending", 0, 0, "Normal", none⟩,
   ⟨1, "T1", "Pending", 0, 1, "Normal", none⟩,
   ⟨2, "T2", "Pending", 0, 2, "Normal", none⟩]

/-- Clients used to instantiate the reconciliation theorem. -/
def clientX : Client := ⟨10, "X", 0⟩

def clientY : Client := ⟨11, "Y", 0⟩

/-! Helper lemmas. -/

/-- Splice-insert (`l.take j ++ a :: l.drop j`, the JavaScript
`splice(j, 0, a)`) agrees with `List.insertIdx` when `j` is in bounds. -/
theorem take_cons_drop_eq_insertIdx {α : Type} (l : List α) (j : Nat) (a : α)
    (h : j ≤ l.length) : l.take j ++ a :: l.drop j = l.insertIdx j a := by
  induction j generalizing l with
  | zero => simp [List.insertIdx_zero]
  | succ j ih =>
    cases l with
    | nil => simp at h
    | cons b l =>
      simp only [List.take_succ_cons, List.drop_succ_cons, List.cons_append,
        List.insertIdx_succ_cons]
      rw [ih]
      simpa using h

/-- Unfolding of `handleSort` at in-range drag indices: splice-out then
splice-in is `insertIdx` on the erased list, followed by the positional
renumbering. -/
theorem handleSort_eq (tasks : List Task) (i j : Nat)
    (hi : i < tasks.length) (hj : j < tasks.length) :
    handleSort tasks i j =
      some (((tasks.eraseIdx i).insertIdx j (tasks.get ⟨i, hi⟩)).enum.map
        (fun p => { p.2 with order := p.1 })) := by
  have hg : tasks.get? i = some (tasks.get ⟨i, hi⟩) := List.get?_eq_get hi
  have hle : j ≤ (tasks.eraseIdx i).length := by
    rw [List.length_eraseIdx_of_lt hi]; omega
  simp only [handleSort, hg]
  rw [take_cons_drop_eq_insertIdx _ _ _ hle]

/-! C1: reorder moves the dragged element and renumbers positionally. -/

/-- C1: for every task list and indices `i, j` in `[0, n-1]`, `handleSort`
produces exactly the list obtained by removing the element at index `i` and
reinserting it at index `j`, with each task's `order` field rewritten to its
0-based position in that resulting list. -/
theorem handleSort_moves (tasks : List Task) (i j : Nat)
    (hi : i < tasks.length) (hj : j < tasks.length) :
    handleSort tasks i j =
      some (((tasks.eraseIdx i).insertIdx j (tasks.get ⟨i, hi⟩)).enum.map
        (fun p => { p.2 with order := p.1 })) :=
  handleSort_eq tasks i j hi hj

/-- C1 witness: moving index 0 to index 2 in `[A, B, C, D]` yields
`[B, C, A, D]` with orders `0, 1, 2, 3`. -/
theorem handleSort_moves_witness :
    handleSort abcdTasks 0 2 =
      some [{ taskB with order := 0 }, { taskC with order := 1 },
            { taskA with order := 2 }, { taskD with order := 3 }] := by
  rw [handleSort_moves abcdTasks 0 2 (by decide) (by decide)]
  rfl

/-! C2: after every reorder the order fields are exactly 0..N-1. -/

/-- C2: for every pre-state (dense or inconsistent) and valid drag indices,
the list persisted by `handleSort` has `order` fields exactly
`0, ..., N-1`: no duplicates and no missing values. -/
theorem handleSort_orders (tasks : List Task) (i j : Nat)
    (hi : i < tasks.length) (hj : j < tasks.length) :
    ∃ res, handleSort tasks i j = some res ∧
      res.map Task.order = List.range tasks.length ∧
      (res.map Task.order).Nodup ∧
      (res.map Task.order).toFinset = Finset.range tasks.length ∧
      res.length = tasks.length := by
  have hle : j ≤ (tasks.eraseIdx i).length := by
    rw [List.length_eraseIdx_of_lt hi]; omega
  have hlen : ((tasks.eraseIdx i).insertIdx j (tasks.get ⟨i, hi⟩)).length
      = tasks.length := by
    rw [List.length_insertIdx _ _ hle, List.length_eraseIdx_of_lt hi]
    omega
  have hmap : (((tasks.eraseIdx i).insertIdx j (tasks.get ⟨i, hi⟩)).enum.map
      (fun p => { p.2 with order := p.1 : Task })).map Task.order
      = List.range tasks.length := by
    rw [List.map_map]
    have hcomp : (Task.order ∘ fun p : Nat × Task => { p.2 with order := p.1 })
        = Prod.fst := rfl
    rw [hcomp, List.enum_map_fst, hlen]
  refine ⟨_, handleSort_eq tasks i j hi hj, hmap, ?_, ?_, ?_⟩
  · rw [hmap]; exact List.nodup_range tasks.length
  · rw [hmap]; ext x; simp
  · simpa [List.length_map, List.enum_length] using hlen

/-- C2 witness: a reorder on an inconsistent pre-state (orders `5, 5, 0`)
still settles to orders exactly `0, 1, 2`. -/
theorem handleSort_orders_witness :
    ∃ res, handleSort messyTasks 2 0 = some res ∧
      res.map Task.order = List.range messyTasks.length ∧
      (res.map Task.order).Nodup ∧
      (res.map Task.order).toFinset = Finset.range messyTasks.length ∧
      res.length = messyTasks.length :=
  handleSort_orders messyTasks 2 0 (by decide) (by decide)

/-! Store lemmas for the batched writes. -/

/-- Folding a list of `setTask` writes appends the corresponding
subcollection documents. -/
theorem foldl_setTasks (ws : List Task) (cid : Nat) (s : Store) :
    (ws.map (Write.setTask cid)).foldl applyWrite s
      = { s with tasks := s.tasks ++ ws.map (fun t => (cid, t)) } := by
  induction ws generalizing s with
  | nil => simp
  | cons w ws ih =>
    simp only [List.map_cons, List.foldl_cons, applyWrite, ih, List.map_cons]
    simp

/-- Reading a client's subcollection after appending that client's fresh
documents returns exactly those documents. -/
theorem tasksOf_append_fresh (s : Store) (cid : Nat) (ws : List Task)
    (hfresh : ∀ p ∈ s.tasks, p.1 ≠ cid) :
    tasksOf { s with tasks := s.tasks ++ ws.map (fun t => (cid, t)) } cid = ws := by
  unfold tasksOf
  rw [List.filter_append]
  have h1 : s.tasks.filter (fun p => decide (p.1 = cid)) = [] := by
    rw [List.filter_eq_nil_iff]
    intro p hp
    simpa using hfresh p hp
  have h2 : (ws.map (fun t => (cid, t))).filter (fun p => decide (p.1 = cid))
      = ws.map (fun t => (cid, t)) := by
    rw [List.filter_eq_self]
    intro p hp
    simp only [List.mem_map] at hp
    obtain ⟨t, _, rfl⟩ := hp
    simp
  rw [h1, h2]
  simp [List.map_map]

/-- Committing a batch of one client set followed by that client's task
sets appends the client document and the task documents. -/
theorem addClient_commit (s : Store) (c : Client) (ws : List Task) (cid : Nat) :
    commitBatch true (Write.setClient c :: ws.map (Write.setTask cid)) s
      = { clients := s.clients ++ [c],
          tasks := s.tasks ++ ws.map (fun t => (cid, t)) } := by
  have h0 : commitBatch true (Write.setClient c :: ws.map (Write.setTask cid)) s
      = (ws.map (Write.setTask cid)).foldl applyWrite
          { s with clients := s.clients ++ [c] } := rfl
  rw [h0, foldl_setTasks]

/-! C3: client creation writes one client plus 8 seed tasks atomically. -/

/-- C3: a client-creation call with a name that is non-empty after trimming
builds one atomic batch of exactly `N + 1` writes (`N = 8`, the template
size).  A successful commit leaves exactly one matching client document and
exactly the 8 seed tasks — the `k`-th with `order = k`, name the `k`-th
template entry, `status = "Pending"`, `priority = "Normal"`,
`dueDate = null` — while a failed commit leaves the store untouched. -/
theorem addClient_creates (s : Store) (clientName : String) (newId now : Nat)
    (hname : jsTrim clientName ≠ "")
    (hfreshC : ∀ c ∈ s.clients, c.id ≠ newId)
    (hfreshT : ∀ p ∈ s.tasks, p.1 ≠ newId) :
    ∃ b, addClientBatch clientName newId now = some b ∧
      STANDARD_ONBOARDING_TASKS.length = 8 ∧
      b.length = STANDARD_ONBOARDING_TASKS.length + 1 ∧
      ((commitBatch true b s).clients.filter (fun c => decide (c.id = newId))).length
        = 1 ∧
      tasksOf (commitBatch true b s) newId = seedTasks now ∧
      (tasksOf (commitBatch true b s) newId).map Task.name
        = STANDARD_ONBOARDING_TASKS ∧
      (tasksOf (commitBatch true b s) newId).map Task.order
        = List.range STANDARD_ONBOARDING_TASKS.length ∧
      (∀ t ∈ tasksOf (commitBatch true b s) newId,
        t.status = "Pending" ∧ t.priority = "Normal" ∧ t.dueDate = none) ∧
      commitBatch false b s = s := by
  have hbatch : addClientBatch clientName newId now
      = some (Write.setClient { id := newId, name := jsTrim clientName, createdAt := now } ::
          (seedTasks now).map (Write.setTask newId)) := by
    simp [addClientBatch, hname]
  have hT : tasksOf
      (commitBatch true
        (Write.setClient { id := newId, name := jsTrim clientName, createdAt := now } ::
          (seedTasks now).map (Write.setTask newId)) s) newId = seedTasks now := by
    rw [addClient_commit]
    exact tasksOf_append_fresh
      { clients := s.clients ++ [{ id := newId, name := jsTrim clientName, createdAt := now }],
        tasks := s.tasks } newId (seedTasks now) hfreshT
  refine ⟨_, hbatch, rfl, ?_, ?_, hT, ?_, ?_, ?_, rfl⟩
  · simp [seedTasks, List.length_map, List.enum_length]
  · rw [addClient_commit]
    show ((s.clients ++ _).filter _).length = 1
    rw [List.filter_append]
    have h1 : s.clients.filter (fun c => decide (c.id = newId)) = [] := by
      rw [List.filter_eq_nil_iff]
      intro c hc
      simpa using hfreshC c hc
    rw [h1]
    simp
  · rw [hT]
    simp only [seedTasks, List.map_map]
    have hcomp : (Task.name ∘ fun p : Nat × String =>
        ({ id := p.1, name := p.2, status := "Pending", createdAt := now,
           order := p.1, priority := "Normal", dueDate := none } : Task))
        = Prod.snd := rfl
    rw [hcomp, List.enum_map_snd]
  · rw [hT]
    simp only [seedTasks, List.map_map]
    have hcomp : (Task.order ∘ fun p : Nat × String =>
        ({ id := p.1, name := p.2, status := "Pending", createdAt := now,
           order := p.1, priority := "Normal", dueDate := none } : Task))
        = Prod.fst := rfl
    rw [hcomp, List.enum_map_fst]
  · rw [hT]
    intro t ht
    simp only [seedTasks, List.mem_map] at ht
    obtain ⟨p, _, rfl⟩ := ht
    exact ⟨rfl, rfl, rfl⟩

/-- C3 witness: creating client "Acme" in the empty store lands one client
document and the 8 seed tasks with orders `0..7`. -/
theorem addClient_creates_witness :
    jsTrim "Acme" ≠ "" ∧
    (∃ b, addClientBatch "Acme" 0 0 = some b ∧
      STANDARD_ONBOARDING_TASKS.length = 8 ∧
      b.length = STANDARD_ONBOARDING_TASKS.length + 1 ∧
      ((commitBatch true b { clients := [], tasks := [] }).clients.filter
          (fun c => decide (c.id = 0))).length = 1 ∧
      tasksOf (commitBatch true b { clients := [], tasks := [] }) 0 = seedTasks 0 ∧
      (tasksOf (commitBatch true b { clients := [], tasks := [] }) 0).map Task.name
        = STANDARD_ONBOARDING_TASKS ∧
      (tasksOf (commitBatch true b { clients := [], tasks := [] }) 0).map Task.order
        = List.range STANDARD_ONBOARDING_TASKS.length ∧
      (∀ t ∈ tasksOf (commitBatch true b { clients := [], tasks := [] }) 0,
        t.status = "Pending" ∧ t.priority = "Normal" ∧ t.dueDate = none) ∧
      commitBatch false b { clients := [], tasks := [] } = { clients := [], tasks := [] }) :=
  ⟨by decide,
    addClient_creates { clients := [], tasks := [] } "Acme" 0 0 (by decide)
      (by simp) (by simp)⟩

/-! C4: client deletion cascades over the read task set. -/

/-- Folding a list of task deletes for one client filters out exactly the
tasks whose ids were read, leaving the client list untouched. -/
theorem foldl_delTasks (ds : List Nat) (cid : Nat) (s : Store) :
    (ds.map (Write.delTask cid)).foldl applyWrite s
      = { s with
          tasks := s.tasks.filter (fun p => decide (¬ (p.1 = cid ∧ p.2.id ∈ ds))) } := by
  induction ds generalizing s with
  | nil => simp
  | cons d ds ih =>
    simp only [List.map_cons, List.foldl_cons, applyWrite, ih]
    congr 1
    rw [List.filter_filter]
    apply List.filter_congr
    intro p _
    rw [Bool.and_eq_decide, decide_eq_decide]
    simp only [List.mem_cons]
    tauto

/-- C4: a client deletion reads the client's current task set and deletes
all of those tasks plus the client document in one batch.  After a
successful commit no task references the client id and the client document
is absent; documents of other clients survive; with zero tasks read the
batch is the client delete alone; a failed commit changes nothing. -/
theorem deleteClient_cascades (s : Store) (clientId : Nat) :
    (∀ p ∈ (deleteClient s clientId true).tasks, p.1 ≠ clientId) ∧
    (∀ c ∈ (deleteClient s clientId true).clients, c.id ≠ clientId) ∧
    (∀ p ∈ s.tasks, p.1 ≠ clientId → p ∈ (deleteClient s clientId true).tasks) ∧
    (∀ c ∈ s.clients, c.id ≠ clientId → c ∈ (deleteClient s clientId true).clients) ∧
    (tasksOf s clientId = [] → deleteClientBatch s clientId = [Write.delClient clientId]) ∧
    deleteClient s clientId false = s := by
  have hmm : (tasksOf s clientId).map (fun t => Write.delTask clientId t.id)
      = ((tasksOf s clientId).map Task.id).map (Write.delTask clientId) := by
    simp [List.map_map]
  have hD : deleteClient s clientId true
      = { clients := s.clients.filter (fun c => decide (c.id ≠ clientId)),
          tasks := s.tasks.filter (fun p =>
            decide (¬ (p.1 = clientId ∧ p.2.id ∈ (tasksOf s clientId).map Task.id))) } := by
    show commitBatch true (deleteClientBatch s clientId) s = _
    unfold deleteClientBatch
    rw [hmm]
    have h0 : commitBatch true
        ((((tasksOf s clientId).map Task.id).map (Write.delTask clientId))
          ++ [Write.delClient clientId]) s
        = applyWrite
            ((((tasksOf s clientId).map Task.id).map (Write.delTask clientId)).foldl
              applyWrite s)
            (Write.delClient clientId) := by
      simp [commitBatch, List.foldl_append]
    rw [h0, foldl_delTasks]
    rfl
  refine ⟨?_, ?_, ?_, ?_, ?_, rfl⟩
  · intro p hp
    rw [hD] at hp
    simp only [List.mem_filter, decide_eq_true_eq] at hp
    intro hcid
    refine hp.2 ⟨hcid, ?_⟩
    have hmem : p.2 ∈ tasksOf s clientId := by
      unfold tasksOf
      exact List.mem_map_of_mem Prod.snd
        (List.mem_filter.mpr ⟨hp.1, by simp [hcid]⟩)
    exact List.mem_map_of_mem Task.id hmem
  · intro c hc
    rw [hD] at hc
    simp only [List.mem_filter, decide_eq_true_eq] at hc
    exact hc.2
  · intro p hp hne
    rw [hD]
    simp only [List.mem_filter, decide_eq_true_eq]
    exact ⟨hp, fun h => hne h.1⟩
  · intro c hc hne
    rw [hD]
    simp only [List.mem_filter, decide_eq_true_eq]
    exact ⟨hc, hne⟩
  · intro h0
    unfold deleteClientBatch
    rw [h0]
    simp

/-- C4 witness: deleting client 1 of the two-client store removes its two
tasks and its client document, and leaves client 2's data intact. -/
theorem deleteClient_cascades_witness :
    (∀ p ∈ (deleteClient twoClientStore 1 true).tasks, p.1 ≠ 1) ∧
    (∀ c ∈ (deleteClient twoClientStore 1 true).clients, c.id ≠ 1) ∧
    (∀ p ∈ twoClientStore.tasks, p.1 ≠ 1 → p ∈ (deleteClient twoClientStore 1 true).tasks) ∧
    (∀ c ∈ twoClientStore.clients, c.id ≠ 1 → c ∈ (deleteClient twoClientStore 1 true).clients) ∧
    (tasksOf twoClientStore 1 = [] → deleteClientBatch twoClientStore 1 = [Write.delClient 1]) ∧
    deleteClient twoClientStore 1 false = twoClientStore :=
  deleteClient_cascades twoClientStore 1

/-! C5: addTask appends with order = current task count. -/

/-- C5 counterexample: on a 2-task list whose orders are `0, 2` (a gap
state reachable by deleting the middle task of three), `addTask` writes the
new task with `order = 2`, duplicating an existing order value — the
claim's "no duplicates" conclusion fails. -/
theorem addTask_counterexample :
    ¬ ((addTask gapTasks "Extra" 9 0).map Task.order).Nodup := by decide

/-- C5 (amended): an `addTask` call with a non-blank name on a task list
whose `k` orders are exactly `0..k-1` appends one new task with
`order = k` (the current task count), `status = "Pending"`,
`priority = "Normal"`, `dueDate = null`, rewrites no existing task, and the
resulting orders are exactly `0..k` — dense and duplicate-free.  (Without
the density precondition the append and the frame part still hold, but the
orders can duplicate, as the counterexample shows.) -/
theorem addTask_appends (tasks : List Task) (newTaskName : String) (newId now : Nat)
    (hname : jsTrim newTaskName ≠ "")
    (hdense : tasks.map Task.order = List.range tasks.length) :
    (addTask tasks newTaskName newId now).take tasks.length = tasks ∧
    (∃ nt, addTask tasks newTaskName newId now = tasks ++ [nt] ∧
      nt.order = tasks.length ∧ nt.status = "Pending" ∧ nt.priority = "Normal" ∧
      nt.dueDate = none ∧ nt.name = jsTrim newTaskName) ∧
    (addTask tasks newTaskName newId now).map Task.order
      = List.range (tasks.length + 1) ∧
    ((addTask tasks newTaskName newId now).map Task.order).Nodup := by
  have hadd : addTask tasks newTaskName newId now
      = tasks ++ [{ id := newId, name := jsTrim newTaskName, status := "Pending",
                    createdAt := now, order := tasks.length, priority := "Normal",
                    dueDate := none }] := by
    simp [addTask, hname]
  have hord : (addTask tasks newTaskName newId now).map Task.order
      = List.range (tasks.length + 1) := by
    rw [hadd, List.map_append, hdense]
    simp [List.range_succ]
  refine ⟨?_, ⟨_, hadd, rfl, rfl, rfl, rfl, rfl⟩, hord, ?_⟩
  · rw [hadd]
    exact List.take_left tasks _
  · rw [hord]
    exact List.nodup_range (tasks.length + 1)

/-- C5 witness: appending a task to the dense list `[A, B, C, D]` yields a
new task with order 4 and orders exactly `0..4`. -/
theorem addTask_appends_witness :
    jsTrim "Extra" ≠ "" ∧
    abcdTasks.map Task.order = List.range abcdTasks.length ∧
    ((addTask abcdTasks "Extra" 9 0).take abcdTasks.length = abcdTasks ∧
      (∃ nt, addTask abcdTasks "Extra" 9 0 = abcdTasks ++ [nt] ∧
        nt.order = abcdTasks.length ∧ nt.status = "Pending" ∧ nt.priority = "Normal" ∧
        nt.dueDate = none ∧ nt.name = jsTrim "Extra") ∧
      (addTask abcdTasks "Extra" 9 0).map Task.order
        = List.range (abcdTasks.length + 1) ∧
      ((addTask abcdTasks "Extra" 9 0).map Task.order).Nodup) :=
  ⟨by decide, by decide, addTask_appends abcdTasks "Extra" 9 0 (by decide) (by decide)⟩

/-! C6: selection reconciliation on every client-list snapshot. -/

/-- C6: on every new client-list snapshot the selection state machine
behaves as specified: a vanished selection falls back to the first client
(or none if the list is empty), an empty selection picks the first client
of a non-empty list, an empty list clears the selection, a still-present
selection is kept — so the selection is `some` exactly when the client set
is non-empty after reconciliation. -/
theorem reconcileSelection_spec (selectedClient : Option Client)
    (clientsData : List Client) :
    (clientsData = [] → reconcileSelection selectedClient clientsData = none) ∧
    (clientsData ≠ [] → (reconcileSelection selectedClient clientsData).isSome = true) ∧
    (∀ sc, selectedClient = some sc → (∀ c ∈ clientsData, c.id ≠ sc.id) →
      reconcileSelection selectedClient clientsData = clientsData.head?) ∧
    (∀ sc, selectedClient = some sc → (∃ c ∈ clientsData, c.id = sc.id) →
      reconcileSelection selectedClient clientsData = some sc) ∧
    (selectedClient = none → clientsData ≠ [] →
      reconcileSelection selectedClient clientsData = clientsData.head?) ∧
    (selectedClient = none → clientsData = [] →
      reconcileSelection selectedClient clientsData = none) := by
  cases selectedClient with
  | none =>
    refine ⟨?_, ?_, ?_, ?_, ?_, ?_⟩
    · intro h
      subst h
      simp [reconcileSelection]
    · intro h
      have hpos : 0 < clientsData.length := List.length_pos.mpr h
      simp only [reconcileSelection, if_pos hpos]
      simpa [Option.isSome] using List.head?_isSome.mpr h
    · intro sc hsc
      exact absurd hsc (by simp)
    · intro sc hsc
      exact absurd hsc (by simp)
    · intro _ h
      have hpos : 0 < clientsData.length := List.length_pos.mpr h
      simp [reconcileSelection, if_pos hpos]
    · intro _ h
      subst h
      simp [reconcileSelection]
  | some sc =>
    refine ⟨?_, ?_, ?_, ?_, ?_, ?_⟩
    · intro h
      subst h
      simp [reconcileSelection]
    · intro h
      by_cases hany : clientsData.any (fun c => decide (c.id = sc.id))
      · have hlen : clientsData.length ≠ 0 := by
          simpa [List.length_eq_zero] using h
        simp [reconcileSelection, hany, hlen]
      · simp only [reconcileSelection, hany]
        simpa [Option.isSome, hany] using List.head?_isSome.mpr h
    · intro sc' hsc habs
      injection hsc with heq
      subst heq
      have hany : clientsData.any (fun c => decide (c.id = sc.id)) = false := by
        simp only [List.any_eq_false]
        intro c hc
        simpa using habs c hc
      simp [reconcileSelection, hany]
    · intro sc' hsc hpres
      injection hsc with heq
      subst heq
      obtain ⟨c, hc, hid⟩ := hpres
      have hany : clientsData.any (fun c => decide (c.id = sc.id)) = true := by
        rw [List.any_eq_true]
        exact ⟨c, hc, by simpa using hid⟩
      have hlen : clientsData.length ≠ 0 := by
        intro h0
        rw [List.length_eq_zero] at h0
        subst h0
        simp at hc
      simp [reconcileSelection, hany, hlen]
    · intro h
      exact absurd h (by simp)
    · intro h
      exact absurd h (by simp)

/-- C6 witness: with client X selected and a snapshot that no longer
contains X, the selection becomes the first remaining client Y. -/
theorem reconcileSelection_spec_witness :
    ([clientY] = ([] : List Client) → reconcileSelection (some clientX) [clientY] = none) ∧
    ([clientY] ≠ ([] : List Client) →
      (reconcileSelection (some clientX) [clientY]).isSome = true) ∧
    (∀ sc, some clientX = some sc → (∀ c ∈ [clientY], c.id ≠ sc.id) →
      reconcileSelection (some clientX) [clientY] = [clientY].head?) ∧
    (∀ sc, some clientX = some sc → (∃ c ∈ [clientY], c.id = sc.id) →
      reconcileSelection (some clientX) [clientY] = some sc) ∧
    (some clientX = none → [clientY] ≠ ([] : List Client) →
      reconcileSelection (some clientX) [clientY] = [clientY].head?) ∧
    (some clientX = none → [clientY] = ([] : List Client) →
      reconcileSelection (some clientX) [clientY] = none) :=
  reconcileSelection_spec (some clientX) [clientY]

/-! C7: task deletion issues no renumbering write. -/

/-- C7: `deleteTask` removes exactly the one task document; every remaining
task keeps its whole record — in particular its `order` field — and their
relative order, so a gap may appear (deleting the middle of `0, 1, 2`
leaves `0, 2`, which is not dense). -/
theorem deleteTask_frame (tasks : List Task) (taskId : Nat) :
    List.Sublist (deleteTask tasks taskId) tasks ∧
    (∀ t, t ∈ deleteTask tasks taskId ↔ t ∈ tasks ∧ t.id ≠ taskId) ∧
    (deleteTask threeTasks 1).map Task.order = [0, 2] ∧
    (deleteTask threeTasks 1).map Task.order
      ≠ List.range (deleteTask threeTasks 1).length := by
  refine ⟨List.filter_sublist tasks, ?_, by decide, by decide⟩
  intro t
  simp [deleteTask, List.mem_filter]

/-- C7 witness: the frame property instantiated at the three-task list. -/
theorem deleteTask_frame_witness :
    List.Sublist (deleteTask threeTasks 1) threeTasks ∧
    (∀ t, t ∈ deleteTask threeTasks 1 ↔ t ∈ threeTasks ∧ t.id ≠ 1) ∧
    (deleteTask threeTasks 1).map Task.order = [0, 2] ∧
    (deleteTask threeTasks 1).map Task.order
      ≠ List.range (deleteTask threeTasks 1).length :=
  deleteTask_frame threeTasks 1

/-! C8: field updates touch only the named field. -/

/-- C8: a status update (`handleDrop` / `StatusPicker`) leaves `order`,
`priority` and `dueDate` unchanged — setting the status to its current
value leaves the task literally unchanged — and a priority or due-date
update alone leaves `order` (and the other unnamed fields) unchanged. -/
theorem updateTask_frame (t : Task) (newStatus newPriority value : String) :
    (applyUpdate t (handleDrop newStatus)).order = t.order ∧
    (applyUpdate t (handleDrop newStatus)).priority = t.priority ∧
    (applyUpdate t (handleDrop newStatus)).dueDate = t.dueDate ∧
    (applyUpdate t (handleDrop newStatus)).status = newStatus ∧
    applyUpdate t (handleDrop t.status) = t ∧
    (applyUpdate t (priorityChange newPriority)).order = t.order ∧
    (applyUpdate t (priorityChange newPriority)).status = t.status ∧
    (applyUpdate t (priorityChange newPriority)).dueDate = t.dueDate ∧
    (applyUpdate t (handleDateChange value)).order = t.order ∧
    (applyUpdate t (handleDateChange value)).status = t.status ∧
    (applyUpdate t (handleDateChange value)).priority = t.priority :=
  ⟨rfl, rfl, rfl, rfl, rfl, rfl, rfl, rfl, rfl, rfl, rfl⟩

/-- C8 witness: the frame property instantiated at task A with a status
update to its current value. -/
theorem updateTask_frame_witness :
    (applyUpdate taskA (handleDrop "Completed")).order = taskA.order ∧
    (applyUpdate taskA (handleDrop "Completed")).priority = taskA.priority ∧
    (applyUpdate taskA (handleDrop "Completed")).dueDate = taskA.dueDate ∧
    (applyUpdate taskA (handleDrop "Completed")).status = "Completed" ∧
    applyUpdate taskA (handleDrop taskA.status) = taskA ∧
    (applyUpdate taskA (priorityChange "High")).order = taskA.order ∧
    (applyUpdate taskA (priorityChange "High")).status = taskA.status ∧
    (applyUpdate taskA (priorityChange "High")).dueDate = taskA.dueDate ∧
    (applyUpdate taskA (handleDateChange "2024-01-01")).order = taskA.order ∧
    (applyUpdate taskA (handleDateChange "2024-01-01")).status = taskA.status ∧
    (applyUpdate taskA (handleDateChange "2024-01-01")).priority = taskA.priority :=
  updateTask_frame taskA "Completed" "High" "2024-01-01"

/-! C9: empty client name is rejected before any write. -/

/-- C9: a client-creation call whose name trims to the empty string is
rejected by the `clientName.trim() === ''` guard: no batch is built
(`addClientBatch` returns `none`) and the store is unchanged, whatever the
outcome of any commit would have been. -/
theorem addClient_rejects_empty (s : Store) (clientName : String) (newId now : Nat)
    (ok : Bool) (h : jsTrim clientName = "") :
    addClientBatch clientName newId now = none ∧
    addClient s clientName newId now ok = s := by
  have hb : addClientBatch clientName newId now = none := by
    simp [addClientBatch, h]
  exact ⟨hb, by simp [addClient, hb]⟩

/-- C9 witness: a whitespace-only name is rejected and the store is left
as it was. -/
theorem addClient_rejects_empty_witness :
    jsTrim "   " = "" ∧
    (addClientBatch "   " 3 7 = none ∧
      addClient twoClientStore "   " 3 7 true = twoClientStore) :=
  ⟨by decide, addClient_rejects_empty twoClientStore "   " 3 7 true (by decide)⟩

/-! C10: the date picker normalizes the empty input to null. -/

/-- C10: `handleDateChange` writes `dueDate: e.target.value || null`: the
empty input string becomes null, any other input is written as is, so the
persisted `dueDate` is never the empty string. -/
theorem handleDateChange_normalizes (value : String) (t : Task) :
    (handleDateChange value).dueDate
      = some (if value = "" then none else some value) ∧
    (applyUpdate t (handleDateChange value)).dueDate ≠ some "" ∧
    (value = "" → (applyUpdate t (handleDateChange value)).dueDate = none) ∧
    (value ≠ "" → (applyUpdate t (handleDateChange value)).dueDate = some value) := by
  by_cases h : value = "" <;> simp [handleDateChange, applyUpdate, h]

/-- C10 witness: the empty input writes null and a real date writes
itself. -/
theorem handleDateChange_normalizes_witness :
    ((handleDateChange "").dueDate = some (if "" = "" then none else some "") ∧
      (applyUpdate taskB (handleDateChange "")).dueDate ≠ some "" ∧
      ("" = "" → (applyUpdate taskB (handleDateChange "")).dueDate = none) ∧
      (("" : String) ≠ "" → (applyUpdate taskB (handleDateChange "")).dueDate = some "")) ∧
    ((handleDateChange "2024-06-30").dueDate
        = some (if "2024-06-30" = "" then none else some "2024-06-30") ∧
      (applyUpdate taskB (handleDateChange "2024-06-30")).dueDate ≠ some "" ∧
      ("2024-06-30" = "" → (applyUpdate taskB (handleDateChange "2024-06-30")).dueDate = none) ∧
      (("2024-06-30" : String) ≠ "" →
        (applyUpdate taskB (handleDateChange "2024-06-30")).dueDate = some "2024-06-30")) :=
  ⟨handleDateChange_normalizes "" taskB, handleDateChange_normalizes "2024-06-30" taskB⟩

end ClientTracker
